import Mathlib

/-!
Verification of the native-messaging bridge in linux-entra-sso.py.

The development shallowly embeds the Python module: byte streams are lists
of naturals (each byte a value below 256), Python strings are lists of
characters, and the JSON values handled by the bridge are modelled by the
inductive type Json below.  The Python standard-library helpers the module
calls (json.dumps with compact separators, json.loads, str.encode("utf-8"),
bytes.decode("utf-8"), struct.pack) are modelled concretely over that
fragment: integers cover the numbers the bridge produces (the model omits
floating-point literals, which never occur in this protocol), and the
serializer performs mandatory JSON escaping.  Fallible operations return
Option or Except values; an uncaught Python exception is an error value.
-/

namespace EntraSSO

/-- JSON values as handled by the bridge: null, booleans, integers, strings,
arrays and objects (ordered association lists, as produced by a parse). -/
inductive Json where
  | null : Json
  | bool (b : Bool) : Json
  | num (n : Int) : Json
  | str (s : List Char) : Json
  | arr (elems : List Json) : Json
  | obj (members : List (List Char × Json)) : Json

/-- Decimal digit character for a value below ten. -/
def digitChar (n : Nat) : Char := Char.ofNat (48 + n)

/-- Fuelled decimal printer for naturals (most significant digit first). -/
def natCharsAux : Nat → Nat → List Char
  | 0, _ => []
  | f + 1, n => if n < 10 then [digitChar n] else natCharsAux f (n / 10) ++ [digitChar (n % 10)]

/-- Decimal representation of a natural number, as Python's int repr. -/
def natChars (n : Nat) : List Char := natCharsAux (n + 1) n

/-- Decimal representation of an integer, as Python's int repr. -/
def intChars (i : Int) : List Char :=
  if i < 0 then '-' :: natChars i.natAbs else natChars i.natAbs

/-- Lowercase hexadecimal digit for a value below sixteen. -/
def hexDigitChar (n : Nat) : Char := if n < 10 then digitChar n else Char.ofNat (87 + n)

/-- JSON string escaping of one character, following json.dumps: quote and
backslash are escaped, control characters use the short escapes or a
four-digit lowercase unicode escape. -/
def escapeChar (c : Char) : List Char :=
  if c = '"' then ['\\', '"']
  else if c = '\\' then ['\\', '\\']
  else if c = '\n' then ['\\', 'n']
  else if c = '\t' then ['\\', 't']
  else if c = '\r' then ['\\', 'r']
  else if c = '\x08' then ['\\', 'b']
  else if c = '\x0c' then ['\\', 'f']
  else if c.toNat < 32 then
    ['\\', 'u', '0', '0', hexDigitChar (c.toNat / 16), hexDigitChar (c.toNat % 16)]
  else [c]

/-- JSON string escaping of a whole string body. -/
def escapeChars : List Char → List Char
  | [] => []
  | c :: cs => escapeChar c ++ escapeChars cs

mutual
/-- Compact JSON serialization, modelling
json.dumps(message_content, separators=(",", ":")) from encode_message. -/
def serialize : Json → List Char
  | .num i => intChars i
  | .str s => '"' :: escapeChars s ++ ['"']
  | .null => ['n', 'u', 'l', 'l']
  | .bool false => ['f', 'a', 'l', 's', 'e']
  | .bool true => ['t', 'r', 'u', 'e']
  | .arr [] => ['[', ']']
  | .arr (v :: vs) => '[' :: (serialize v ++ serializeTail vs ++ [']'])
  | .obj [] => ['\x7b', '\x7d']
  | .obj (m :: ms) => '\x7b' :: (serializeMember m ++ serializeMembersTail ms ++ ['\x7d'])

/-- Remaining array elements, each preceded by a comma. -/
def serializeTail : List Json → List Char
  | [] => []
  | v :: vs => ',' :: serialize v ++ serializeTail vs

/-- One object member: quoted key, colon, value. -/
def serializeMember : List Char × Json → List Char
  | (k, v) => '"' :: escapeChars k ++ '"' :: ':' :: serialize v

/-- Remaining object members, each preceded by a comma. -/
def serializeMembersTail : List (List Char × Json) → List Char
  | [] => []
  | m :: ms => ',' :: serializeMember m ++ serializeMembersTail ms
end

mutual
/-- Serialization with Python's default separators (", " and ": "), modelling
the plain json.dumps(msg) call inside SsoMib._communicate. -/
def serializeSpaced : Json → List Char
  | .num i => intChars i
  | .str s => '"' :: escapeChars s ++ ['"']
  | .null => ['n', 'u', 'l', 'l']
  | .bool false => ['f', 'a', 'l', 's', 'e']
  | .bool true => ['t', 'r', 'u', 'e']
  | .arr [] => ['[', ']']
  | .arr (v :: vs) => '[' :: (serializeSpaced v ++ serializeSpacedTail vs ++ [']'])
  | .obj [] => ['\x7b', '\x7d']
  | .obj (m :: ms) =>
    '\x7b' :: (serializeSpacedMember m ++ serializeSpacedMembersTail ms ++ ['\x7d'])

/-- Remaining array elements under default separators. -/
def serializeSpacedTail : List Json → List Char
  | [] => []
  | v :: vs => ',' :: ' ' :: serializeSpaced v ++ serializeSpacedTail vs

/-- One object member under default separators. -/
def serializeSpacedMember : List Char × Json → List Char
  | (k, v) => '"' :: escapeChars k ++ '"' :: ':' :: ' ' :: serializeSpaced v

/-- Remaining object members under default separators. -/
def serializeSpacedMembersTail : List (List Char × Json) → List Char
  | [] => []
  | m :: ms => ',' :: ' ' :: serializeSpacedMember m ++ serializeSpacedMembersTail ms
end

/-- Decimal digit test on characters. -/
def isDigitChar (c : Char) : Bool := 48 ≤ c.toNat && c.toNat ≤ 57

/-- Longest digit run at the front of the input, with the remainder. -/
def takeDigits : List Char → List Char × List Char
  | [] => ([], [])
  | c :: cs =>
    if isDigitChar c then
      let r := takeDigits cs
      (c :: r.1, r.2)
    else ([], c :: cs)

/-- Numeric value of a digit run. -/
def digitsVal (ds : List Char) : Nat := ds.foldl (fun a c => a * 10 + (c.toNat - 48)) 0

/-- Value of one hexadecimal digit character. -/
def hexVal (c : Char) : Option Nat :=
  if 48 ≤ c.toNat ∧ c.toNat ≤ 57 then some (c.toNat - 48)
  else if 97 ≤ c.toNat ∧ c.toNat ≤ 102 then some (c.toNat - 87)
  else if 65 ≤ c.toNat ∧ c.toNat ≤ 70 then some (c.toNat - 55)
  else none

/-- Single-character JSON escapes accepted after a backslash. -/
def escDecode (e : Char) : Option Char :=
  if e = '"' then some '"'
  else if e = '\\' then some '\\'
  else if e = '/' then some '/'
  else if e = 'b' then some '\x08'
  else if e = 'f' then some '\x0c'
  else if e = 'n' then some '\n'
  else if e = 'r' then some '\r'
  else if e = 't' then some '\t'
  else none

/-- Decode a JSON escape sequence (after the backslash), including the
four-hex-digit unicode form, yielding the character and the remaining
input. -/
def parseEscape : List Char → Option (Char × List Char)
  | [] => none
  | e :: rest =>
    if e = 'u' then
      match rest with
      | h1 :: h2 :: h3 :: h4 :: rest2 =>
        match hexVal h1, hexVal h2, hexVal h3, hexVal h4 with
        | some a, some b, some c, some d =>
          let code := a * 4096 + b * 256 + c * 16 + d
          if Nat.isValidChar code then some (Char.ofNat code, rest2) else none
        | _, _, _, _ => none
      | _ => none
    else (escDecode e).map (fun c => (c, rest))

/-- Fuelled body of the JSON string parser: consumes characters after an
opening quote up to and including the closing quote. -/
def parseStringRest : Nat → List Char → Option (List Char × List Char)
  | 0, _ => none
  | _ + 1, [] => none
  | f + 1, c :: rest =>
    if c = '"' then some ([], rest)
    else if c = '\\' then
      match parseEscape rest with
      | none => none
      | some (c2, rest2) => (parseStringRest f rest2).map (fun p => (c2 :: p.1, p.2))
    else if c.toNat < 32 then none
    else (parseStringRest f rest).map (fun p => (c :: p.1, p.2))

/-- JSON string body parser; the fuel bound of one step per input character
always suffices. -/
def parseString (input : List Char) : Option (List Char × List Char) :=
  parseStringRest (input.length + 1) input

mutual
/-- Fuelled JSON value parser over the fragment emitted by the bridge
(null, booleans, integers, strings, arrays, objects). -/
def parseValue : Nat → List Char → Option (Json × List Char)
  | 0, _ => none
  | _ + 1, [] => none
  | f + 1, c :: rest =>
    if c = '"' then (parseString rest).map (fun p => (Json.str p.1, p.2))
    else if c = '[' then
      if rest.head? = some ']' then some (Json.arr [], rest.tail)
      else (parseElems f rest).map (fun p => (Json.arr p.1, p.2))
    else if c = '\x7b' then
      if rest.head? = some '\x7d' then some (Json.obj [], rest.tail)
      else (parseMembers f rest).map (fun p => (Json.obj p.1, p.2))
    else if c = 'n' then
      match rest with
      | 'u' :: 'l' :: 'l' :: rest2 => some (Json.null, rest2)
      | _ => none
    else if c = 't' then
      match rest with
      | 'r' :: 'u' :: 'e' :: rest2 => some (Json.bool true, rest2)
      | _ => none
    else if c = 'f' then
      match rest with
      | 'a' :: 'l' :: 's' :: 'e' :: rest2 => some (Json.bool false, rest2)
      | _ => none
    else if c = '-' then
      match takeDigits rest with
      | ([], _) => none
      | (ds, rest2) => some (Json.num (-(digitsVal ds : Int)), rest2)
    else if isDigitChar c then
      some (Json.num (digitsVal (takeDigits (c :: rest)).1), (takeDigits (c :: rest)).2)
    else none

/-- Fuelled parser for the elements of a non-empty array, consuming the
closing bracket. -/
def parseElems : Nat → List Char → Option (List Json × List Char)
  | 0, _ => none
  | f + 1, input =>
    match parseValue f input with
    | none => none
    | some (v, rest) =>
      if rest.head? = some ',' then (parseElems f rest.tail).map (fun p => (v :: p.1, p.2))
      else if rest.head? = some ']' then some ([v], rest.tail)
      else none

/-- Fuelled parser for the members of a non-empty object, consuming the
closing brace. -/
def parseMembers : Nat → List Char → Option (List (List Char × Json) × List Char)
  | 0, _ => none
  | f + 1, input =>
    match input with
    | '"' :: rest =>
      match parseString rest with
      | none => none
      | some (k, rest2) =>
        match rest2 with
        | ':' :: rest3 =>
          match parseValue f rest3 with
          | none => none
          | some (v, rest4) =>
            if rest4.head? = some ',' then
              (parseMembers f rest4.tail).map (fun p => ((k, v) :: p.1, p.2))
            else if rest4.head? = some '\x7d' then some ([(k, v)], rest4.tail)
            else none
        | _ => none
    | _ => none
end

/-- JSON insignificant whitespace. -/
def isWsChar (c : Char) : Bool := c = ' ' || c = '\t' || c = '\n' || c = '\r'

/-- Drop leading JSON whitespace. -/
def skipWs : List Char → List Char
  | [] => []
  | c :: rest => if isWsChar c then skipWs rest else c :: rest

/-- Model of json.loads on the bridge's JSON fragment: one value, possibly
surrounded by whitespace, and nothing else. -/
def loads (s : List Char) : Option Json :=
  let t := skipWs s
  match parseValue (t.length + 1) t with
  | none => none
  | some (v, rest) => if skipWs rest = [] then some v else none

/-- UTF-8 encoding of one character (one to four bytes). -/
def utf8EncodeChar (c : Char) : List Nat :=
  let n := c.toNat
  if n < 128 then [n]
  else if n < 2048 then [192 + n / 64, 128 + n % 64]
  else if n < 65536 then [224 + n / 4096, 128 + n / 64 % 64, 128 + n % 64]
  else [240 + n / 262144, 128 + n / 4096 % 64, 128 + n / 64 % 64, 128 + n % 64]

/-- UTF-8 encoding of a string, modelling str.encode("utf-8"). -/
def utf8Encode : List Char → List Nat
  | [] => []
  | c :: cs => utf8EncodeChar c ++ utf8Encode cs

/-- UTF-8 continuation byte test. -/
def isCont (b : Nat) : Bool := 128 ≤ b && b < 192

mutual
/-- Strict UTF-8 decoding of a byte list, modelling bytes.decode("utf-8"):
stray continuation bytes, truncated sequences, overlong forms, surrogates
and out-of-range code points are rejected. -/
def utf8Decode : List Nat → Option (List Char)
  | [] => some []
  | b :: rest =>
    if b < 128 then (utf8Decode rest).map (fun cs => Char.ofNat b :: cs)
    else if b < 194 then none
    else if b < 224 then utf8Decode2 b rest
    else if b < 240 then utf8Decode3 b rest
    else if b < 245 then utf8Decode4 b rest
    else none

/-- Continuation of a two-byte UTF-8 sequence. -/
def utf8Decode2 (b : Nat) : List Nat → Option (List Char)
  | b1 :: rest1 =>
    if isCont b1 then
      (utf8Decode rest1).map (fun cs => Char.ofNat ((b - 192) * 64 + (b1 - 128)) :: cs)
    else none
  | [] => none

/-- Continuation of a three-byte UTF-8 sequence. -/
def utf8Decode3 (b : Nat) : List Nat → Option (List Char)
  | b1 :: b2 :: rest2 =>
    let n := (b - 224) * 4096 + (b1 - 128) * 64 + (b2 - 128)
    if isCont b1 && isCont b2 && decide (2048 ≤ n) &&
        !(decide (55296 ≤ n) && decide (n < 57344)) then
      (utf8Decode rest2).map (fun cs => Char.ofNat n :: cs)
    else none
  | _ => none

/-- Continuation of a four-byte UTF-8 sequence. -/
def utf8Decode4 (b : Nat) : List Nat → Option (List Char)
  | b1 :: b2 :: b3 :: rest3 =>
    let n := (b - 240) * 262144 + (b1 - 128) * 4096 + (b2 - 128) * 64 + (b3 - 128)
    if isCont b1 && isCont b2 && isCont b3 && decide (65536 ≤ n) &&
        decide (n < 1114112) then
      (utf8Decode rest3).map (fun cs => Char.ofNat n :: cs)
    else none
  | _ => none
end

/-- Model of struct.pack("@I", n): four bytes, little-endian (the native
byte order of the reference x86-64 Linux platform); values of 2^32 or more
raise struct.error, modelled as none. -/
def packUInt (n : Nat) : Option (List Nat) :=
  if n < 4294967296 then
    some [n % 256, n / 256 % 256, n / 65536 % 256, n / 16777216 % 256]
  else none

/-- Model of struct.unpack("@I", b0 b1 b2 b3): little-endian reassembly. -/
def unpackUInt (b0 b1 b2 b3 : Nat) : Nat := b0 + 256 * b1 + 65536 * b2 + 16777216 * b3

/-- Size in bytes of a C unsigned long under the LP64 model used by Linux
on x86-64: eight bytes. -/
def SIZEOF_NATIVE_LONG : Nat := 8

/-- Model of struct.pack("@L", n) on x86-64 Linux: sizeof(long) bytes in
little-endian order; out-of-range values raise struct.error. -/
def packULong (n : Nat) : Option (List Nat) :=
  if n < 2 ^ (8 * SIZEOF_NATIVE_LONG) then
    some ((List.range SIZEOF_NATIVE_LONG).map (fun i => n / 256 ^ i % 256))
  else none

/-- Encoded frame as built by NativeMessaging.encode_message: the packed
length prefix and the JSON payload bytes. -/
structure EncodedMessage where
  length : List Nat
  content : List Nat

/-- Model of NativeMessaging.encode_message: compact JSON, UTF-8 bytes, and
a struct.pack("@I", len) length prefix; none models a raised struct.error
when the payload has 2^32 bytes or more. -/
def encode_message (m : Json) : Option EncodedMessage :=
  let content := utf8Encode (serialize m)
  match packUInt content.length with
  | none => none
  | some l => some ⟨l, content⟩

/-- Model of NativeMessaging.send_message: the length prefix followed by
the payload, as written to stdout. -/
def send_message (e : EncodedMessage) : List Nat := e.length ++ e.content

/-- Outcome of NativeMessaging.get_message on a byte stream: a clean
sys.exit(0) on an empty stream, an uncaught exception (struct.error,
UnicodeDecodeError or json.JSONDecodeError), or a decoded message together
with the unread remainder of the stream. -/
inductive GetMessageResult where
  | exitZero : GetMessageResult
  | raised : GetMessageResult
  | message (m : Json) (rest : List Nat) : GetMessageResult

/-- Model of NativeMessaging.get_message: read four prefix bytes (zero
available means sys.exit(0); one to three raise struct.error), then read up
to that many payload bytes (a read at end of stream returns what is left),
UTF-8-decode and json.loads them. -/
def get_message (stream : List Nat) : GetMessageResult :=
  match stream with
  | [] => .exitZero
  | [_] => .raised
  | [_, _] => .raised
  | [_, _, _] => .raised
  | b0 :: b1 :: b2 :: b3 :: rest =>
    let n := unpackUInt b0 b1 b2 b3
    match utf8Decode (rest.take n) with
    | none => .raised
    | some chars =>
      match loads chars with
      | none => .raised
      | some m => .message m (rest.drop n)

/-- Python exception classes raised by the modelled code paths. -/
inductive PyError where
  | keyError : PyError
  | indexError : PyError
  | typeError : PyError
  | brokerError : PyError

/-- Fixed fallback ssoUrl (module constant SSO_URL_DEFAULT). -/
def SSO_URL_DEFAULT : List Char := ("https://login.microsoftonline.com/".data)

/-- Version placeholder baked into the module (LINUX_ENTRA_SSO_VERSION). -/
def LINUX_ENTRA_SSO_VERSION : List Char := ("0.0.0-dev".data)

/-- Default scopes list (SsoMib.GRAPH_SCOPES). -/
def GRAPH_SCOPES : Json := Json.arr [Json.str ("https://graph.microsoft.com/.default".data)]

/-- Dictionary lookup on a parsed JSON object; on duplicate keys the last
binding wins, as when json.loads builds a Python dict.  Lookup on a
non-object models the TypeError or KeyError a subscript would raise, so it
yields none. -/
def getEntry : List (List Char × Json) → List Char → Option Json
  | [], _ => none
  | (k, v) :: rest, key =>
    match getEntry rest key with
    | some r => some r
    | none => if k = key then some v else none

/-- Subscript access received[key] on a JSON value. -/
def Json.getField : Json → List Char → Option Json
  | .obj members, key => getEntry members key
  | _, _ => none

/-- Python truthiness of a JSON value, used by the "x or default" idiom. -/
def jsonTruthy : Json → Bool
  | .null => false
  | .bool b => b
  | .num n => decide (n ≠ 0)
  | .str s => !s.isEmpty
  | .arr l => !l.isEmpty
  | .obj l => !l.isEmpty

/-- Model of SsoMib.get_accounts: the fixed placeholder account list. -/
def get_accounts : Json :=
  Json.obj [(("accounts".data),
    Json.arr [Json.obj [(("name".data), Json.str ("Windows User".data)),
                        (("username".data), Json.str ("windows_user".data))]])]

/-- Model of SsoMib.get_broker_version: sentinel broker version and the
bridge's own version string, in insertion order. -/
def get_broker_version : Json :=
  Json.obj [(("linuxBrokerVersion".data), Json.num (-1)),
            (("native".data), Json.str LINUX_ENTRA_SSO_VERSION)]

/-- Model of SsoMib.acquire_token_silently: a fixed not-implemented error
object returned as an ordinary result. -/
def acquire_token_silently (_account _scopes : Json) : Json :=
  Json.obj [(("error".data), Json.str ("not implemented".data))]

/-- GetCookies request built inside SsoMib.acquire_prt_sso_cookie. -/
def mkGetCookiesRequest (sso_url : List Char) : Json :=
  Json.obj [(("method".data), Json.str ("GetCookies".data)),
            (("sender".data), Json.str ("https://login.microsoftonline.com/".data)),
            (("uri".data), Json.str sso_url)]

/-- Observable outcome of one SsoMib broker operation: the returned value
or raised exception, the requests written to the broker subprocess, and the
number of logging.warning calls made. -/
structure CallTrace where
  result : Except PyError Json
  brokerRequests : List Json
  warnings : Nat

/-- Prefix of a Python string before the first semicolon, modelling
data.split(";")[0]. -/
def beforeSemicolon (s : List Char) : List Char := s.takeWhile (fun c => c ≠ ';')

/-- Model of SsoMib.acquire_prt_sso_cookie.  The broker subprocess is an
oracle from the written request to its parsed JSON reply; a broker failure
(spawn or reply parse) is an exception.  The warning about multiple cookies
is counted before the first cookie is taken, mirroring the source order;
missing keys raise KeyError, an empty cookie list raises IndexError, and a
non-string data field raises when split on. -/
def acquire_prt_sso_cookie (broker : Json → Except Unit Json) (_account : Json)
    (sso_url : List Char) : CallTrace :=
  let request := mkGetCookiesRequest sso_url
  match broker request with
  | .error _ => ⟨.error .brokerError, [request], 0⟩
  | .ok resp =>
    match resp.getField ("response".data) with
    | none => ⟨.error .keyError, [request], 0⟩
    | some (Json.arr cookies) =>
      let w := if 1 < cookies.length then 1 else 0
      match cookies with
      | [] => ⟨.error .indexError, [request], w⟩
      | c0 :: _ =>
        match c0.getField ("name".data) with
        | none => ⟨.error .keyError, [request], w⟩
        | some nameJson =>
          match c0.getField ("data".data) with
          | some (Json.str dataStr) =>
            ⟨.ok (Json.obj [(("cookieName".data), nameJson),
                            (("cookieContent".data), Json.str (beforeSemicolon dataStr))]),
             [request], w⟩
          | some _ => ⟨.error .typeError, [request], w⟩
          | none => ⟨.error .keyError, [request], w⟩
    | some _ => ⟨.error .typeError, [request], 0⟩

/-- Length prefix written by SsoMib._communicate for a broker request: the
byte length of the default-separator JSON payload packed with
struct.pack("@L"). -/
def communicateSizeBytes (msg : Json) : Option (List Nat) :=
  packULong (utf8Encode (serializeSpaced msg)).length

/-- Full request frame written by SsoMib._communicate to the broker
subprocess input: size prefix followed by the JSON payload bytes. -/
def communicateWrite (msg : Json) : Option (List Nat) :=
  match communicateSizeBytes msg with
  | none => none
  | some size => some (size ++ utf8Encode (serializeSpaced msg))

/-- Fixed processing-error payload from run_as_native_messaging. -/
def processing_error : Json :=
  Json.obj [(("error".data), Json.str ("Failure during request processing".data))]

/-- Response envelope built by respond(command, message). -/
def mkEnvelope (cmd : List Char) (message : Json) : Json :=
  Json.obj [(("command".data), Json.str cmd), (("message".data), message)]

/-- Observable outcome of handle_command: the raised exception if any, the
envelopes written to stdout, the broker requests written, and the warning
count. -/
structure HandleTrace where
  result : Except PyError Unit
  responses : List Json
  brokerRequests : List Json
  warnings : Nat

/-- Model of handle_command from run_as_native_messaging.  The four
recognized commands dispatch to the SsoMib operations; missing mandatory
keys raise KeyError; the "received_message[ssoUrl] or SSO_URL_DEFAULT"
idiom replaces a falsy value (but only a present one) with the default; any
other command falls through with no response. -/
def handle_command (broker : Json → Except Unit Json) (cmd : List Char) (msg : Json) :
    HandleTrace :=
  if cmd = ("acquirePrtSsoCookie".data) then
    match msg.getField ("account".data) with
    | none => ⟨.error .keyError, [], [], 0⟩
    | some account =>
      match msg.getField ("ssoUrl".data) with
      | none => ⟨.error .keyError, [], [], 0⟩
      | some v =>
        match (if jsonTruthy v then v else Json.str SSO_URL_DEFAULT) with
        | Json.str sso_url =>
          let t := acquire_prt_sso_cookie broker account sso_url
          match t.result with
          | .ok token => ⟨.ok (), [mkEnvelope cmd token], t.brokerRequests, t.warnings⟩
          | .error e => ⟨.error e, [], t.brokerRequests, t.warnings⟩
        | _ => ⟨.error .typeError, [], [], 0⟩
  else if cmd = ("acquireTokenSilently".data) then
    match msg.getField ("account".data) with
    | none => ⟨.error .keyError, [], [], 0⟩
    | some account =>
      let scopes :=
        match msg.getField ("scopes".data) with
        | some s => if jsonTruthy s then s else GRAPH_SCOPES
        | none => GRAPH_SCOPES
      ⟨.ok (), [mkEnvelope cmd (acquire_token_silently account scopes)], [], 0⟩
  else if cmd = ("getAccounts".data) then
    ⟨.ok (), [mkEnvelope cmd get_accounts], [], 0⟩
  else if cmd = ("getVersion".data) then
    ⟨.ok (), [mkEnvelope cmd get_broker_version], [], 0⟩
  else ⟨.ok (), [], [], 0⟩

/-- Outcome of one iteration of the while-True loop in
run_as_native_messaging: a clean exit at end of stream, a crash from an
uncaught exception (with the frames written before it), or a normal
iteration with the frames written and the remaining inbound stream. -/
inductive LoopStep where
  | exitZero : LoopStep
  | crashed (outFrames : List Json) : LoopStep
  | next (outFrames : List Json) (rest : List Nat) : LoopStep

/-- Model of one iteration of the session loop: read a frame; look up its
command (a missing key or non-string command raises before the try block
and crashes the loop); run handle_command under the try block, turning any
exception into the fixed processing-error envelope. -/
def session_step (broker : Json → Except Unit Json) (stream : List Nat) : LoopStep :=
  match get_message stream with
  | .exitZero => .exitZero
  | .raised => .crashed []
  | .message m rest =>
    match m.getField ("command".data) with
    | none => .crashed []
    | some (Json.str cmd) =>
      let t := handle_command broker cmd m
      match t.result with
      | .ok _ => .next t.responses rest
      | .error _ => .next (t.responses ++ [mkEnvelope cmd processing_error]) rest
    | some _ => .crashed []

/-- The four commands recognized by handle_command. -/
def recognizedCommands : List (List Char) :=
  [("acquirePrtSsoCookie".data), ("acquireTokenSilently".data),
   ("getAccounts".data), ("getVersion".data)]

/-- Decoding of a frame payload as get_message performs it: UTF-8 decode
then json.loads; none models a raised exception. -/
def decodeFramePayload (bs : List Nat) : Option Json :=
  match utf8Decode bs with
  | none => none
  | some cs => loads cs

/-- True when the input does not begin with a decimal digit; a serialized
number followed by such a remainder parses back exactly. -/
def nonDigitStart : List Char → Bool
  | [] => true
  | c :: _ => !(isDigitChar c)

/-- Characters able to begin a serialized JSON value. -/
def isValueStart (c : Char) : Bool :=
  c = '"' || c = '[' || c = '\x7b' || c = 'n' || c = 't' || c = 'f' || c = '-' || isDigitChar c

mutual
/-- Parser fuel sufficient for a serialized value. -/
def valueFuel : Json → Nat
  | .null => 1
  | .bool _ => 1
  | .num _ => 1
  | .str _ => 1
  | .arr [] => 1
  | .arr (v :: vs) => 1 + elemsFuel (v :: vs)
  | .obj [] => 1
  | .obj (m :: ms) => 1 + membersFuel (m :: ms)

/-- Parser fuel sufficient for serialized array elements. -/
def elemsFuel : List Json → Nat
  | [] => 0
  | v :: vs => 1 + valueFuel v + elemsFuel vs

/-- Parser fuel sufficient for serialized object members. -/
def membersFuel : List (List Char × Json) → Nat
  | [] => 0
  | m :: ms => 1 + valueFuel m.2 + membersFuel ms
end

/-- Broker oracle that fails every call, modelling an unspawnable broker
subprocess. -/
def demoBrokerFail : Json → Except Unit Json := fun _ => .error ()

/-- Broker oracle answering every request with a single-cookie GetCookies
response. -/
def demoBrokerOk : Json → Except Unit Json := fun _ =>
  .ok (Json.obj [(("response".data),
    Json.arr [Json.obj [(("name".data), Json.str ("X-Anon".data)),
                        (("data".data), Json.str ("abc123;Path=/;Secure".data))]])])

/-- Inbound acquirePrtSsoCookie message whose ssoUrl key is absent. -/
def msgNoSsoUrl : Json :=
  Json.obj [(("command".data), Json.str ("acquirePrtSsoCookie".data)),
            (("account".data), Json.null)]

/-- Inbound acquirePrtSsoCookie message carrying a null ssoUrl. -/
def msgNullSsoUrl : Json :=
  Json.obj [(("command".data), Json.str ("acquirePrtSsoCookie".data)),
            (("account".data), Json.null),
            (("ssoUrl".data), Json.null)]

/-- Byte stream framing a single message, as the extension would send it;
empty when the message is too large to frame. -/
def frameOf (m : Json) : List Nat :=
  match encode_message m with
  | some e => send_message e
  | none => []

/-- Inbound message with a command outside the recognized set. -/
def msgBogusCommand : Json :=
  Json.obj [(("command".data), Json.str ("bogus".data))]

/-- First demo cookie entry for the multiple-cookie scenario. -/
def cookieA : Json :=
  Json.obj [(("name".data), Json.str ("A".data)), (("data".data), Json.str ("v1;Path=/".data))]

/-- Second demo cookie entry for the multiple-cookie scenario. -/
def cookieB : Json :=
  Json.obj [(("name".data), Json.str ("B".data)), (("data".data), Json.str ("v2".data))]

/-- Broker oracle returning two cookies. -/
def demoBrokerTwoCookies : Json → Except Unit Json := fun _ =>
  .ok (Json.obj [(("response".data), Json.arr [cookieA, cookieB])])

/-- Broker oracle returning an empty cookie list. -/
def demoBrokerEmptyCookies : Json → Except Unit Json := fun _ =>
  .ok (Json.obj [(("response".data), Json.arr [])])


theorem char_toNat_ofNat (n : Nat) (h : Nat.isValidChar n) : (Char.ofNat n).toNat = n := by
  unfold Char.ofNat
  rw [dif_pos h]
  rfl

theorem digitChar_toNat (n : Nat) (h : n < 10) : (digitChar n).toNat = 48 + n := by
  unfold digitChar
  exact char_toNat_ofNat _ (Or.inl (by omega))

theorem isDigitChar_digitChar (n : Nat) (h : n < 10) : isDigitChar (digitChar n) = true := by
  simp [isDigitChar, digitChar_toNat n h]
  omega

theorem natCharsAux_digits (f : Nat) : ∀ n, n < f → ∀ c ∈ natCharsAux f n, isDigitChar c = true := by
  induction f with
  | zero => intro n h; omega
  | succ f IH =>
    intro n h c hc
    rw [natCharsAux] at hc
    by_cases h10 : n < 10
    · simp [h10] at hc
      subst hc
      exact isDigitChar_digitChar n h10
    · simp [h10] at hc
      rcases hc with hc | hc
      · exact IH (n / 10) (by omega) c hc
      · subst hc
        exact isDigitChar_digitChar _ (by omega)

theorem natChars_digits (n : Nat) : ∀ c ∈ natChars n, isDigitChar c = true :=
  natCharsAux_digits (n + 1) n (by omega)

theorem natCharsAux_ne_nil (f n : Nat) (h : n < f) : natCharsAux f n ≠ [] := by
  cases f with
  | zero => omega
  | succ f =>
    rw [natCharsAux]
    by_cases h10 : n < 10 <;> simp [h10]

theorem natChars_ne_nil (n : Nat) : natChars n ≠ [] := natCharsAux_ne_nil (n + 1) n (by omega)

theorem digitsVal_append_one (ds : List Char) (c : Char) :
    digitsVal (ds ++ [c]) = 10 * digitsVal ds + (c.toNat - 48) := by
  unfold digitsVal
  rw [List.foldl_append]
  simp
  omega

theorem digitsVal_natCharsAux (f : Nat) : ∀ n, n < f → digitsVal (natCharsAux f n) = n := by
  induction f with
  | zero => intro n h; omega
  | succ f IH =>
    intro n h
    rw [natCharsAux]
    by_cases h10 : n < 10
    · simp [digitsVal, h10, digitChar_toNat n h10]
    · simp only [h10, if_false]
      rw [digitsVal_append_one, IH (n / 10) (by omega), digitChar_toNat (n % 10) (by omega)]
      omega

theorem digitsVal_natChars (n : Nat) : digitsVal (natChars n) = n :=
  digitsVal_natCharsAux (n + 1) n (by omega)

theorem takeDigits_digits (ds : List Char) (rest : List Char)
    (h : ∀ c ∈ ds, isDigitChar c = true) (hrest : nonDigitStart rest = true) :
    takeDigits (ds ++ rest) = (ds, rest) := by
  induction ds with
  | nil =>
    simp only [List.nil_append]
    cases rest with
    | nil => rfl
    | cons c cs =>
      simp [nonDigitStart] at hrest
      simp [takeDigits, hrest]
  | cons c cs IH =>
    have hc : isDigitChar c = true := h c (by simp)
    simp only [List.cons_append, takeDigits, hc, if_true]
    rw [List.append_eq, IH (fun x hx => h x (by simp [hx]))]

theorem isDigitChar_ne (c d : Char) (hc : isDigitChar c = true) (hd : isDigitChar d = false) :
    c ≠ d := by
  intro h
  subst h
  rw [hc] at hd
  cases hd


theorem hexVal_hexDigitChar (n : Nat) (h : n < 16) : hexVal (hexDigitChar n) = some n := by
  unfold hexDigitChar
  by_cases h10 : n < 10
  · rw [if_pos h10]
    unfold hexVal
    rw [digitChar_toNat n h10]
    rw [if_pos (by omega)]
    congr 1
    omega
  · rw [if_neg h10]
    have ht : (Char.ofNat (87 + n)).toNat = 87 + n := char_toNat_ofNat _ (Or.inl (by omega))
    unfold hexVal
    rw [ht]
    rw [if_neg (by omega), if_pos (by omega)]
    congr 1
    omega

theorem parseEscape_control (c : Char) (h : c.toNat < 32) (tail : List Char) :
    parseEscape ('u' :: '0' :: '0' :: hexDigitChar (c.toNat / 16) :: hexDigitChar (c.toNat % 16) :: tail)
      = some (c, tail) := by
  have h0 : hexVal '0' = some 0 := by decide
  simp only [parseEscape, if_pos, reduceIte, h0,
    hexVal_hexDigitChar (c.toNat / 16) (by omega), hexVal_hexDigitChar (c.toNat % 16) (by omega)]
  rw [show (0 * 4096 + 0 * 256 + c.toNat / 16 * 16 + c.toNat % 16) = c.toNat by omega]
  rw [if_pos (Or.inl (by omega) : Nat.isValidChar c.toNat), Char.ofNat_toNat]

theorem parseStringRest_escape (s : List Char) : ∀ f rest, s.length + 1 ≤ f →
    parseStringRest f (escapeChars s ++ '"' :: rest) = some (s, rest) := by
  induction s with
  | nil =>
    intro f rest hf
    cases f with
    | zero => omega
    | succ f => simp [escapeChars, parseStringRest]
  | cons c cs IH =>
    intro f rest hf
    cases f with
    | zero => simp at hf
    | succ f =>
    have hf' : cs.length + 1 ≤ f := by simp at hf; omega
    by_cases h1 : c = '"'
    · subst h1
      simp [escapeChars, escapeChar, parseStringRest, parseEscape, escDecode, IH f rest hf']
    · by_cases h2 : c = '\\'
      · subst h2
        simp [escapeChars, escapeChar, parseStringRest, parseEscape, escDecode, IH f rest hf']
      · by_cases h3 : c = '\n'
        · subst h3
          simp [escapeChars, escapeChar, parseStringRest, parseEscape, escDecode, IH f rest hf']
        · by_cases h4 : c = '\t'
          · subst h4
            simp [escapeChars, escapeChar, parseStringRest, parseEscape, escDecode, IH f rest hf']
          · by_cases h5 : c = '\r'
            · subst h5
              simp [escapeChars, escapeChar, parseStringRest, parseEscape, escDecode, IH f rest hf']
            · by_cases h6 : c = '\x08'
              · subst h6
                simp [escapeChars, escapeChar, parseStringRest, parseEscape, escDecode, IH f rest hf']
              · by_cases h7 : c = '\x0c'
                · subst h7
                  simp [escapeChars, escapeChar, parseStringRest, parseEscape, escDecode, IH f rest hf']
                · by_cases h8 : c.toNat < 32
                  · have he : escapeChars (c :: cs)
                        = '\\' :: 'u' :: '0' :: '0' :: hexDigitChar (c.toNat / 16)
                          :: hexDigitChar (c.toNat % 16) :: escapeChars cs := by
                      simp [escapeChars, escapeChar, h1, h2, h3, h4, h5, h6, h7, h8]
                    rw [he]
                    simp only [List.cons_append]
                    rw [parseStringRest]
                    rw [if_neg (by decide), if_pos rfl]
                    rw [parseEscape_control c h8]
                    simp [IH f rest hf']
                  · have he : escapeChars (c :: cs) = c :: escapeChars cs := by
                      simp [escapeChars, escapeChar, h1, h2, h3, h4, h5, h6, h7, h8]
                    rw [he]
                    simp only [List.cons_append]
                    rw [parseStringRest]
                    rw [if_neg h1, if_neg h2, if_neg h8]
                    simp [IH f rest hf']

theorem escapeChars_length (s : List Char) : s.length ≤ (escapeChars s).length := by
  induction s with
  | nil => simp [escapeChars]
  | cons c cs IH =>
    have h : 1 ≤ (escapeChar c).length := by
      unfold escapeChar
      repeat' split
      all_goals simp
    simp [escapeChars]
    omega

theorem parseString_escape (s rest : List Char) :
    parseString (escapeChars s ++ '"' :: rest) = some (s, rest) := by
  unfold parseString
  apply parseStringRest_escape
  have := escapeChars_length s
  simp
  omega


theorem valueFuel_pos (v : Json) : 1 ≤ valueFuel v := by
  cases v with
  | arr l => cases l <;> simp [valueFuel]
  | obj l => cases l <;> simp [valueFuel]
  | _ => simp [valueFuel]

theorem intChars_ne_nil (i : Int) : intChars i ≠ [] := by
  unfold intChars
  split
  · simp
  · exact natChars_ne_nil _

mutual
theorem valueFuel_le : ∀ v : Json, valueFuel v ≤ (serialize v).length
  | .null => by simp [valueFuel, serialize]
  | .bool b => by cases b <;> simp [valueFuel, serialize]
  | .num i => by
    have h := intChars_ne_nil i
    have : 1 ≤ (intChars i).length := by
      cases he : intChars i with
      | nil => exact absurd he h
      | cons a l => simp
    simpa [valueFuel, serialize] using this
  | .str s => by simp [valueFuel, serialize]
  | .arr [] => by simp [valueFuel, serialize]
  | .arr (v :: vs) => by
    have h1 := valueFuel_le v
    have h2 := elemsFuel_le vs
    simp [valueFuel, serialize, elemsFuel]
    omega
  | .obj [] => by simp [valueFuel, serialize]
  | .obj ((k, x) :: ms) => by
    have h1 := valueFuel_le x
    have h2 := membersFuel_le ms
    simp [valueFuel, serialize, membersFuel, serializeMember]
    omega

theorem elemsFuel_le : ∀ vs : List Json, elemsFuel vs ≤ (serializeTail vs).length
  | [] => by simp [elemsFuel, serializeTail]
  | v :: vs => by
    have h1 := valueFuel_le v
    have h2 := elemsFuel_le vs
    simp [elemsFuel, serializeTail]
    omega

theorem membersFuel_le :
    ∀ ms : List (List Char × Json), membersFuel ms ≤ (serializeMembersTail ms).length
  | [] => by simp [membersFuel, serializeMembersTail]
  | (k, x) :: ms => by
    have h1 := valueFuel_le x
    have h2 := membersFuel_le ms
    simp [membersFuel, serializeMembersTail, serializeMember]
    omega
end

theorem serialize_head (v : Json) :
    ∃ c t, serialize v = c :: t ∧ isValueStart c = true := by
  cases v with
  | null => exact ⟨'n', _, rfl, by decide⟩
  | bool b =>
    cases b
    · exact ⟨'f', _, rfl, by decide⟩
    · exact ⟨'t', _, rfl, by decide⟩
  | num i =>
    show ∃ c t, intChars i = c :: t ∧ isValueStart c = true
    unfold intChars
    by_cases hi : i < 0
    · rw [if_pos hi]
      exact ⟨'-', _, rfl, by decide⟩
    · rw [if_neg hi]
      cases he : natChars i.natAbs with
      | nil => exact absurd he (natChars_ne_nil _)
      | cons d t =>
        refine ⟨d, t, rfl, ?_⟩
        have hd : isDigitChar d = true := natChars_digits i.natAbs d (by rw [he]; simp)
        simp [isValueStart, hd]
  | str s => exact ⟨'"', _, rfl, by decide⟩
  | arr l =>
    cases l
    · exact ⟨'[', _, rfl, by decide⟩
    · exact ⟨'[', _, rfl, by decide⟩
  | obj l =>
    cases l
    · exact ⟨'\x7b', _, rfl, by decide⟩
    · exact ⟨'\x7b', _, rfl, by decide⟩


theorem valueStart_ne (c : Char) (h : isValueStart c = true) (d : Char)
    (hd : isValueStart d = false) : c ≠ d := by
  intro he
  subst he
  rw [h] at hd
  cases hd

theorem parse_serialize_all : ∀ f : Nat,
    (∀ v rest, valueFuel v ≤ f → nonDigitStart rest = true →
      parseValue f (serialize v ++ rest) = some (v, rest)) ∧
    (∀ v vs rest, elemsFuel (v :: vs) ≤ f →
      parseElems f (serialize v ++ serializeTail vs ++ ']' :: rest) = some (v :: vs, rest)) ∧
    (∀ k x ms rest, membersFuel ((k, x) :: ms) ≤ f →
      parseMembers f (serializeMember (k, x) ++ serializeMembersTail ms ++ '\x7d' :: rest)
        = some ((k, x) :: ms, rest)) := by
  intro f
  induction f using Nat.strong_induction_on with
  | _ f IH =>
  refine ⟨?_, ?_, ?_⟩
  · intro v rest hfuel hrest
    cases f with
    | zero => have := valueFuel_pos v; omega
    | succ f =>
    cases v with
    | null => simp [serialize, parseValue]
    | bool b => cases b <;> simp [serialize, parseValue]
    | str s =>
      have hser : serialize (Json.str s) ++ rest = '"' :: (escapeChars s ++ '"' :: rest) := by
        simp [serialize]
      rw [hser]
      simp [parseValue, parseString_escape]
    | num i =>
      by_cases hi : i < 0
      · have hser : serialize (Json.num i) ++ rest = '-' :: (natChars i.natAbs ++ rest) := by
          simp [serialize, intChars, hi]
        rw [hser]
        obtain ⟨d, t, hd⟩ : ∃ d t, natChars i.natAbs = d :: t := by
          cases he : natChars i.natAbs with
          | nil => exact absurd he (natChars_ne_nil _)
          | cons d t => exact ⟨d, t, rfl⟩
        have htd : takeDigits (natChars i.natAbs ++ rest) = (natChars i.natAbs, rest) :=
          takeDigits_digits _ _ (natChars_digits _) hrest
        simp only [parseValue, reduceIte]
        rw [htd, hd]
        have hval : digitsVal (d :: t) = i.natAbs := by rw [← hd, digitsVal_natChars]
        simp only [hval]
        have : -(i.natAbs : Int) = i := by omega
        rw [this]
        simp
      · have hser : serialize (Json.num i) ++ rest = natChars i.natAbs ++ rest := by
          simp [serialize, intChars, hi]
        rw [hser]
        obtain ⟨d, t, hd⟩ : ∃ d t, natChars i.natAbs = d :: t := by
          cases he : natChars i.natAbs with
          | nil => exact absurd he (natChars_ne_nil _)
          | cons d t => exact ⟨d, t, rfl⟩
        have hdd : isDigitChar d = true := natChars_digits i.natAbs d (by rw [hd]; simp)
        have htd : takeDigits (natChars i.natAbs ++ rest) = (natChars i.natAbs, rest) :=
          takeDigits_digits _ _ (natChars_digits _) hrest
        rw [hd] at htd ⊢
        simp only [List.cons_append, parseValue]
        rw [if_neg (isDigitChar_ne d '"' hdd (by decide)),
            if_neg (isDigitChar_ne d '[' hdd (by decide)),
            if_neg (isDigitChar_ne d '\x7b' hdd (by decide)),
            if_neg (isDigitChar_ne d 'n' hdd (by decide)),
            if_neg (isDigitChar_ne d 't' hdd (by decide)),
            if_neg (isDigitChar_ne d 'f' hdd (by decide)),
            if_neg (isDigitChar_ne d '-' hdd (by decide)),
            if_pos hdd]
        rw [← List.cons_append, htd]
        have hval : digitsVal (d :: t) = i.natAbs := by rw [← hd, digitsVal_natChars]
        simp only [hval]
        have : (i.natAbs : Int) = i := by omega
        rw [this]
    | arr l =>
      cases l with
      | nil => simp [serialize, parseValue]
      | cons v vs =>
        have hser : serialize (Json.arr (v :: vs)) ++ rest
            = '[' :: (serialize v ++ serializeTail vs ++ ']' :: rest) := by
          simp [serialize]
        rw [hser]
        obtain ⟨c0, t0, hh, hvs⟩ := serialize_head v
        have hfe : elemsFuel (v :: vs) ≤ f := by
          simp [valueFuel] at hfuel; omega
        have hne : (serialize v ++ serializeTail vs ++ ']' :: rest).head? ≠ some ']' := by
          rw [hh]
          simp
          exact valueStart_ne c0 hvs ']' (by decide)
        have he := (IH f (by omega)).2.1 v vs rest hfe
        simp only [parseValue, reduceIte]
        rw [if_neg hne, he]
        rfl
    | obj l =>
      cases l with
      | nil => simp [serialize, parseValue]
      | cons m ms =>
        obtain ⟨k, x⟩ := m
        have hser : serialize (Json.obj ((k, x) :: ms)) ++ rest
            = '\x7b' :: (serializeMember (k, x) ++ serializeMembersTail ms ++ '\x7d' :: rest) := by
          simp [serialize]
        rw [hser]
        have hfm : membersFuel ((k, x) :: ms) ≤ f := by
          simp [valueFuel] at hfuel; omega
        have hne : (serializeMember (k, x) ++ serializeMembersTail ms
            ++ '\x7d' :: rest).head? ≠ some '\x7d' := by
          simp [serializeMember]
        have hm := (IH f (by omega)).2.2 k x ms rest hfm
        simp only [parseValue, reduceIte]
        rw [if_neg hne, hm]
        rfl
  · intro v vs rest hfuel
    cases f with
    | zero => simp [elemsFuel] at hfuel
    | succ f =>
    have hnd : nonDigitStart (serializeTail vs ++ ']' :: rest) = true := by
      cases vs with
      | nil => rfl
      | cons v2 vs2 => rfl
    have hp := (IH f (by omega)).1 v (serializeTail vs ++ ']' :: rest)
      (by simp [elemsFuel] at hfuel; omega) hnd
    simp only [parseElems]
    rw [List.append_assoc, hp]
    cases vs with
    | nil => simp [serializeTail]
    | cons v2 vs2 =>
      have he := (IH f (by omega)).2.1 v2 vs2 rest
        (by simp only [elemsFuel] at hfuel ⊢; omega)
      rw [List.append_assoc] at he
      simp [serializeTail, he]
  · intro k x ms rest hfuel
    cases f with
    | zero => simp [membersFuel] at hfuel
    | succ f =>
    have hser : serializeMember (k, x) ++ serializeMembersTail ms ++ '\x7d' :: rest
        = '"' :: (escapeChars k ++ '"' :: (':' :: (serialize x
            ++ (serializeMembersTail ms ++ '\x7d' :: rest)))) := by
      simp [serializeMember]
    rw [hser]
    have hnd : nonDigitStart (serializeMembersTail ms ++ '\x7d' :: rest) = true := by
      cases ms with
      | nil => rfl
      | cons m2 ms2 => rfl
    have hp := (IH f (by omega)).1 x (serializeMembersTail ms ++ '\x7d' :: rest)
      (by simp only [membersFuel] at hfuel; omega) hnd
    simp only [parseMembers]
    rw [parseString_escape]
    simp only [hp]
    cases ms with
    | nil => simp [serializeMembersTail]
    | cons m2 ms2 =>
      obtain ⟨k2, x2⟩ := m2
      have hm := (IH f (by omega)).2.2 k2 x2 ms2 rest
        (by simp only [membersFuel] at hfuel ⊢; omega)
      rw [List.append_assoc] at hm
      simp [serializeMembersTail, hm]


theorem valueStart_not_ws (c : Char) (h : isValueStart c = true) : isWsChar c = false := by
  by_cases hw : isWsChar c = true
  · exfalso
    simp [isWsChar] at hw
    rcases hw with ((h1 | h1) | h1) | h1 <;> subst h1 <;> exact absurd h (by decide)
  · simpa using hw

theorem skipWs_not_ws (c : Char) (t : List Char) (h : isWsChar c = false) :
    skipWs (c :: t) = c :: t := by
  simp [skipWs, h]

theorem parseValue_serialize (v : Json) (f : Nat) (hf : valueFuel v ≤ f) :
    parseValue f (serialize v) = some (v, []) := by
  have := (parse_serialize_all f).1 v [] hf (by rfl)
  simpa using this

theorem loads_serialize (v : Json) : loads (serialize v) = some v := by
  obtain ⟨c, t, hser, hstart⟩ := serialize_head v
  have hws : skipWs (serialize v) = serialize v := by
    rw [hser]
    exact skipWs_not_ws c t (valueStart_not_ws c hstart)
  have hfuel : valueFuel v ≤ (serialize v).length + 1 := by
    have := valueFuel_le v
    omega
  unfold loads
  simp only [hws]
  rw [parseValue_serialize v _ hfuel]
  simp [skipWs]


theorem utf8Decode_encodeChar (c : Char) (bs : List Nat) :
    utf8Decode (utf8EncodeChar c ++ bs) = (utf8Decode bs).map (fun cs => c :: cs) := by
  have hv : Nat.isValidChar c.toNat := c.valid
  have hlt : c.toNat < 1114112 := by
    rcases hv with h | ⟨h1, h2⟩ <;> omega
  by_cases h1 : c.toNat < 128
  · have he : utf8EncodeChar c = [c.toNat] := by simp [utf8EncodeChar, h1]
    rw [he]
    simp only [List.append_eq, List.cons_append, List.nil_append, utf8Decode]
    rw [if_pos h1]
    simp only [Char.ofNat_toNat]
  · by_cases h2 : c.toNat < 2048
    · have he : utf8EncodeChar c = [192 + c.toNat / 64, 128 + c.toNat % 64] := by
        simp [utf8EncodeChar, h1, h2]
      rw [he]
      simp only [List.append_eq, List.cons_append, List.nil_append, utf8Decode]
      rw [if_neg (by omega), if_neg (by omega), if_pos (by omega)]
      simp only [List.append_eq, List.cons_append, List.nil_append, utf8Decode2]
      rw [if_pos (by simp [isCont]; omega)]
      simp only [show (192 + c.toNat / 64 - 192) * 64 + (128 + c.toNat % 64 - 128) = c.toNat
        from by omega]
      simp only [Char.ofNat_toNat]
    · by_cases h3 : c.toNat < 65536
      · have he : utf8EncodeChar c
            = [224 + c.toNat / 4096, 128 + c.toNat / 64 % 64, 128 + c.toNat % 64] := by
          simp [utf8EncodeChar, h1, h2, h3]
        rw [he]
        simp only [List.append_eq, List.cons_append, List.nil_append, utf8Decode]
        rw [if_neg (by omega), if_neg (by omega), if_neg (by omega), if_pos (by omega)]
        simp only [List.append_eq, List.cons_append, List.nil_append, utf8Decode3]
        rw [if_pos (by
          have hns : ¬(55296 ≤ c.toNat ∧ c.toNat < 57344) := by
            rcases hv with h | ⟨ha, hb⟩ <;> omega
          simp [isCont]
          omega)]
        simp only [show (224 + c.toNat / 4096 - 224) * 4096 + (128 + c.toNat / 64 % 64 - 128) * 64
            + (128 + c.toNat % 64 - 128) = c.toNat from by omega]
        simp only [Char.ofNat_toNat]
      · have he : utf8EncodeChar c
            = [240 + c.toNat / 262144, 128 + c.toNat / 4096 % 64,
               128 + c.toNat / 64 % 64, 128 + c.toNat % 64] := by
          simp [utf8EncodeChar, h1, h2, h3]
        rw [he]
        simp only [List.append_eq, List.cons_append, List.nil_append, utf8Decode]
        rw [if_neg (by omega), if_neg (by omega), if_neg (by omega), if_neg (by omega),
            if_pos (by omega)]
        simp only [List.append_eq, List.cons_append, List.nil_append, utf8Decode4]
        rw [if_pos (by simp [isCont]; omega)]
        simp only [show (240 + c.toNat / 262144 - 240) * 262144
            + (128 + c.toNat / 4096 % 64 - 128) * 4096
            + (128 + c.toNat / 64 % 64 - 128) * 64 + (128 + c.toNat % 64 - 128) = c.toNat
          from by omega]
        simp only [Char.ofNat_toNat]

theorem utf8Decode_encode (s : List Char) : utf8Decode (utf8Encode s) = some s := by
  induction s with
  | nil => rfl
  | cons c cs IH =>
    show utf8Decode (utf8EncodeChar c ++ utf8Encode cs) = some (c :: cs)
    rw [utf8Decode_encodeChar, IH]
    rfl


theorem unpackUInt_packUInt (n : Nat) (h : n < 4294967296) :
    unpackUInt (n % 256) (n / 256 % 256) (n / 65536 % 256) (n / 16777216 % 256) = n := by
  unfold unpackUInt
  omega

theorem utf8EncodeChar_ne_nil (c : Char) : utf8EncodeChar c ≠ [] := by
  intro hc
  rw [utf8EncodeChar] at hc
  repeat' split at hc
  all_goals simp at hc

theorem utf8Encode_ne_nil (s : List Char) (h : s ≠ []) : utf8Encode s ≠ [] := by
  cases s with
  | nil => exact absurd rfl h
  | cons c cs =>
    show utf8EncodeChar c ++ utf8Encode cs ≠ []
    simp [utf8EncodeChar_ne_nil c]

theorem encode_message_some (m : Json)
    (h : (utf8Encode (serialize m)).length < 4294967296) :
    encode_message m
      = some ⟨[(utf8Encode (serialize m)).length % 256,
               (utf8Encode (serialize m)).length / 256 % 256,
               (utf8Encode (serialize m)).length / 65536 % 256,
               (utf8Encode (serialize m)).length / 16777216 % 256],
              utf8Encode (serialize m)⟩ := by
  simp only [encode_message, packUInt, if_pos h]

theorem get_message_frame (m : Json)
    (h : (utf8Encode (serialize m)).length < 4294967296) (rest : List Nat) :
    ∀ e, encode_message m = some e →
      get_message (send_message e ++ rest) = .message m rest := by
  intro e he
  rw [encode_message_some m h] at he
  simp only [Option.some.injEq] at he
  subst he
  unfold send_message
  simp only [List.cons_append, List.nil_append, List.append_assoc]
  rw [get_message]
  rw [unpackUInt_packUInt _ h]
  rw [List.take_left, List.drop_left]
  rw [utf8Decode_encode]
  simp only [loads_serialize]


theorem handle_command_shape (broker : Json → Except Unit Json) (cmd : List Char) (m : Json) :
    (handle_command broker cmd m).result = Except.ok ()
      ∨ (handle_command broker cmd m).responses = [] := by
  simp only [handle_command]
  repeat' split
  all_goals simp

theorem handle_command_error_responses (broker : Json → Except Unit Json) (cmd : List Char)
    (m : Json) (e : PyError) (h : (handle_command broker cmd m).result = Except.error e) :
    (handle_command broker cmd m).responses = [] := by
  rcases handle_command_shape broker cmd m with hs | hs
  · rw [h] at hs
    cases hs
  · exact hs

theorem acquire_prt_sso_cookie_requests (broker : Json → Except Unit Json) (a : Json)
    (u : List Char) :
    (acquire_prt_sso_cookie broker a u).brokerRequests = [mkGetCookiesRequest u] := by
  simp only [acquire_prt_sso_cookie]
  repeat' split
  all_goals rfl

/-- C4: a broker response whose first cookie entry carries name and data
fields makes acquire_prt_sso_cookie return the envelope with that name and
the data portion before the first semicolon. -/
theorem c4_cookie_extraction (broker : Json → Except Unit Json) (account : Json)
    (sso_url : List Char) (resp c0 nameJson : Json) (cs : List Json) (dataStr : List Char)
    (hb : broker (mkGetCookiesRequest sso_url) = .ok resp)
    (hr : resp.getField ("response".data) = some (Json.arr (c0 :: cs)))
    (hn : c0.getField ("name".data) = some nameJson)
    (hd : c0.getField ("data".data) = some (Json.str dataStr)) :
    (acquire_prt_sso_cookie broker account sso_url).result
      = .ok (Json.obj [(("cookieName".data), nameJson),
                       (("cookieContent".data), Json.str (beforeSemicolon dataStr))]) := by
  simp only [acquire_prt_sso_cookie, hb, hr, hn, hd]

theorem c4_cookie_extraction_witness :
    (acquire_prt_sso_cookie demoBrokerOk Json.null SSO_URL_DEFAULT).result
      = .ok (Json.obj [(("cookieName".data), Json.str ("X-Anon".data)),
                       (("cookieContent".data), Json.str ("abc123".data))]) := by
  rw [c4_cookie_extraction demoBrokerOk Json.null SSO_URL_DEFAULT
    (Json.obj [(("response".data),
      Json.arr [Json.obj [(("name".data), Json.str ("X-Anon".data)),
                          (("data".data), Json.str ("abc123;Path=/;Secure".data))]])])
    (Json.obj [(("name".data), Json.str ("X-Anon".data)),
               (("data".data), Json.str ("abc123;Path=/;Secure".data))])
    (Json.str ("X-Anon".data)) [] ("abc123;Path=/;Secure".data) rfl rfl rfl rfl]
  rfl

/-- C5: an empty cookie list raises (IndexError, reported to the extension
as the generic processing error), while two or more cookies succeed using
the first cookie only and log one warning. -/
theorem c5_cookie_count (broker : Json → Except Unit Json) (account : Json)
    (sso_url : List Char) (resp : Json)
    (hb : broker (mkGetCookiesRequest sso_url) = .ok resp) :
    (resp.getField ("response".data) = some (Json.arr []) →
      (acquire_prt_sso_cookie broker account sso_url).result = .error PyError.indexError) ∧
    (∀ c0 c1 cs nameJson dataStr,
      resp.getField ("response".data) = some (Json.arr (c0 :: c1 :: cs)) →
      c0.getField ("name".data) = some nameJson →
      c0.getField ("data".data) = some (Json.str dataStr) →
      (acquire_prt_sso_cookie broker account sso_url).result
        = .ok (Json.obj [(("cookieName".data), nameJson),
                         (("cookieContent".data), Json.str (beforeSemicolon dataStr))]) ∧
      (acquire_prt_sso_cookie broker account sso_url).warnings = 1) := by
  constructor
  · intro hr
    simp only [acquire_prt_sso_cookie, hb, hr]
  · intro c0 c1 cs nameJson dataStr hr hn hd
    have hlen : 1 < (c0 :: c1 :: cs).length := by simp
    constructor
    · simp only [acquire_prt_sso_cookie, hb, hr, hn, hd]
    · simp only [acquire_prt_sso_cookie, hb, hr, hn, hd, if_pos hlen]

theorem c5_cookie_count_witness :
    ((acquire_prt_sso_cookie demoBrokerTwoCookies Json.null SSO_URL_DEFAULT).result
        = .ok (Json.obj [(("cookieName".data), Json.str ("A".data)),
                         (("cookieContent".data), Json.str ("v1".data))])
      ∧ (acquire_prt_sso_cookie demoBrokerTwoCookies Json.null SSO_URL_DEFAULT).warnings = 1)
    ∧ (acquire_prt_sso_cookie demoBrokerEmptyCookies Json.null SSO_URL_DEFAULT).result
        = .error PyError.indexError := by
  constructor
  · have h := ((c5_cookie_count demoBrokerTwoCookies Json.null SSO_URL_DEFAULT
      (Json.obj [(("response".data), Json.arr [cookieA, cookieB])]) rfl).2
      cookieA cookieB [] (Json.str ("A".data)) ("v1;Path=/".data) rfl rfl rfl)
    exact ⟨h.1.trans (by rfl), h.2⟩
  · exact (c5_cookie_count demoBrokerEmptyCookies Json.null SSO_URL_DEFAULT
      (Json.obj [(("response".data), Json.arr [])]) rfl).1 rfl

theorem packULong_length (n : Nat) (bs : List Nat) (h : packULong n = some bs) :
    bs.length = 8 := by
  unfold packULong at h
  split at h
  · simp only [Option.some.injEq] at h
    subst h
    simp [SIZEOF_NATIVE_LONG]
  · cases h

set_option maxRecDepth 8192 in
/-- C7: the length prefix written by _communicate to the broker subprocess
is produced by struct.pack("@L"), which on x86-64 Linux occupies eight
bytes, not the four bytes the protocol description and the source comment
assume; the default GetCookies request exhibits it. -/
theorem c7_broker_prefix_length :
    (communicateSizeBytes (mkGetCookiesRequest SSO_URL_DEFAULT)).map List.length = some 8 := by
  rfl

/-- C8 (amended): a present-but-falsy ssoUrl value falls back to the fixed
default authority URL in the GetCookies request written to the broker. -/
theorem c8_default_ssoUrl (broker : Json → Except Unit Json) (m account v : Json)
    (ha : m.getField ("account".data) = some account)
    (hs : m.getField ("ssoUrl".data) = some v)
    (hf : jsonTruthy v = false) :
    (handle_command broker ("acquirePrtSsoCookie".data) m).brokerRequests
      = [mkGetCookiesRequest SSO_URL_DEFAULT] := by
  unfold handle_command
  rw [if_pos rfl]
  simp only [ha, hs, hf]
  cases hres : (acquire_prt_sso_cookie broker account SSO_URL_DEFAULT).result with
  | ok token => simp [hres, acquire_prt_sso_cookie_requests]
  | error e => simp [hres, acquire_prt_sso_cookie_requests]

theorem c8_default_ssoUrl_witness :
    (handle_command demoBrokerOk ("acquirePrtSsoCookie".data) msgNullSsoUrl).brokerRequests
      = [mkGetCookiesRequest SSO_URL_DEFAULT] :=
  c8_default_ssoUrl demoBrokerOk msgNullSsoUrl Json.null Json.null rfl rfl rfl

/-- C8 counterexample: an acquirePrtSsoCookie request with no ssoUrl key at
all raises KeyError before any broker interaction: no GetCookies request is
written and the command is answered with the processing-error envelope
rather than processed. -/
theorem c8_counterexample :
    handle_command demoBrokerOk ("acquirePrtSsoCookie".data) msgNoSsoUrl
      = ⟨Except.error PyError.keyError, [], [], 0⟩ := by
  rfl


/-- C10: a well-framed message without a command field makes the loop raise
before the try block: nothing is sent and the loop crashes. -/
theorem c10_missing_command (broker : Json → Except Unit Json) (stream : List Nat)
    (m : Json) (rest : List Nat)
    (hget : get_message stream = GetMessageResult.message m rest)
    (hcmd : m.getField ("command".data) = none) :
    session_step broker stream = LoopStep.crashed [] := by
  unfold session_step
  rw [hget]
  simp only [hcmd]

set_option maxRecDepth 8192 in
theorem c10_missing_command_witness :
    session_step demoBrokerFail (frameOf (Json.obj [])) = LoopStep.crashed [] :=
  c10_missing_command demoBrokerFail (frameOf (Json.obj [])) (Json.obj []) [] (by rfl) rfl

/-- C6: a command outside the recognized set produces no outbound frame and
the loop proceeds with the rest of the stream. -/
theorem c6_unknown_command (broker : Json → Except Unit Json) (stream : List Nat)
    (m : Json) (rest : List Nat) (cmd : List Char)
    (hget : get_message stream = GetMessageResult.message m rest)
    (hcmd : m.getField ("command".data) = some (Json.str cmd))
    (hrec : cmd ∉ recognizedCommands) :
    session_step broker stream = LoopStep.next [] rest := by
  simp only [recognizedCommands, List.mem_cons, List.not_mem_nil, or_false, not_or] at hrec
  obtain ⟨h1, h2, h3, h4⟩ := hrec
  unfold session_step
  rw [hget]
  simp only [hcmd]
  unfold handle_command
  rw [if_neg h1, if_neg h2, if_neg h3, if_neg h4]

set_option maxRecDepth 8192 in
theorem c6_unknown_command_witness :
    session_step demoBrokerFail (frameOf msgBogusCommand) = LoopStep.next [] [] :=
  c6_unknown_command demoBrokerFail (frameOf msgBogusCommand) msgBogusCommand []
    ("bogus".data) (by rfl) rfl (by decide)

/-- C3: when handling a recognized command raises, the loop catches it and
sends exactly the fixed processing-error envelope, then continues with the
rest of the stream. -/
theorem c3_error_envelope (broker : Json → Except Unit Json) (stream : List Nat)
    (m : Json) (rest : List Nat) (cmd : List Char) (e : PyError)
    (hget : get_message stream = GetMessageResult.message m rest)
    (hcmd : m.getField ("command".data) = some (Json.str cmd))
    (_hrec : cmd ∈ recognizedCommands)
    (herr : (handle_command broker cmd m).result = Except.error e) :
    session_step broker stream = LoopStep.next [mkEnvelope cmd processing_error] rest := by
  unfold session_step
  rw [hget]
  simp only [hcmd, herr, handle_command_error_responses broker cmd m e herr]
  rfl

set_option maxRecDepth 8192 in
theorem c3_error_envelope_witness :
    session_step demoBrokerFail (frameOf msgNullSsoUrl)
      = LoopStep.next [mkEnvelope ("acquirePrtSsoCookie".data) processing_error] [] :=
  c3_error_envelope demoBrokerFail (frameOf msgNullSsoUrl) msgNullSsoUrl []
    ("acquirePrtSsoCookie".data) PyError.brokerError (by rfl) rfl (by decide) (by rfl)


/-- C1 (amended): every message whose compact-JSON UTF-8 payload is below
2^32 bytes encodes to a frame that get_message decodes back to the same
value, leaving exactly the trailing stream. -/
theorem c1_frame_roundtrip (m : Json)
    (h : (utf8Encode (serialize m)).length < 4294967296) :
    ∃ e, encode_message m = some e ∧
      ∀ rest, get_message (send_message e ++ rest) = GetMessageResult.message m rest := by
  refine ⟨_, encode_message_some m h, ?_⟩
  intro rest
  exact get_message_frame m h rest _ (encode_message_some m h)

theorem c1_frame_roundtrip_witness :
    (utf8Encode (serialize (Json.num 5))).length < 4294967296 ∧
    ∃ e, encode_message (Json.num 5) = some e ∧
      ∀ rest, get_message (send_message e ++ rest)
        = GetMessageResult.message (Json.num 5) rest :=
  ⟨by decide, c1_frame_roundtrip (Json.num 5) (by decide)⟩

theorem escapeChars_replicate_a (n : Nat) :
    escapeChars (List.replicate n 'a') = List.replicate n 'a' := by
  induction n with
  | zero => rfl
  | succ n IH =>
    rw [List.replicate_succ]
    show escapeChar 'a' ++ escapeChars (List.replicate n 'a') = _
    rw [IH, show escapeChar 'a' = ['a'] from by decide]
    rfl

theorem utf8Encode_replicate_a (n : Nat) :
    utf8Encode (List.replicate n 'a') = List.replicate n 97 := by
  induction n with
  | zero => rfl
  | succ n IH =>
    rw [List.replicate_succ]
    show utf8EncodeChar 'a' ++ utf8Encode (List.replicate n 'a') = _
    rw [IH, show utf8EncodeChar 'a' = [97] from by decide]
    rfl

theorem utf8Encode_append (xs ys : List Char) :
    utf8Encode (xs ++ ys) = utf8Encode xs ++ utf8Encode ys := by
  induction xs with
  | nil => rfl
  | cons c cs IH =>
    show utf8EncodeChar c ++ utf8Encode (cs ++ ys)
        = (utf8EncodeChar c ++ utf8Encode cs) ++ utf8Encode ys
    rw [IH, List.append_assoc]

theorem encode_message_none (m : Json)
    (h : ¬ (utf8Encode (serialize m)).length < 4294967296) :
    encode_message m = none := by
  simp only [encode_message, packUInt, if_neg h]

theorem utf8Encode_serialize_replicate_length (n : Nat) :
    (utf8Encode (serialize (Json.str (List.replicate n 'a')))).length = n + 2 := by
  have hser : serialize (Json.str (List.replicate n 'a'))
      = '"' :: (escapeChars (List.replicate n 'a') ++ ['"']) := rfl
  rw [hser]
  show (utf8EncodeChar '"'
      ++ utf8Encode (escapeChars (List.replicate n 'a') ++ ['"'])).length = n + 2
  rw [escapeChars_replicate_a, utf8Encode_append, utf8Encode_replicate_a,
      show utf8EncodeChar '\x22' = [34] from rfl, show utf8Encode ['\x22'] = [34] from rfl,
      List.length_append, List.length_append, List.length_replicate]
  show 1 + (n + 1) = n + 2
  omega

theorem encode_message_replicate_none (n : Nat) (h : 4294967296 ≤ n) :
    encode_message (Json.str (List.replicate n 'a')) = none := by
  apply encode_message_none
  rw [utf8Encode_serialize_replicate_length]
  omega

/-- C1 counterexample: a four-gibibyte string is a JSON-serializable
message, but struct.pack("@I") cannot frame its payload: encode_message
raises struct.error (modelled as none), so no frame exists to round-trip. -/
theorem c1_counterexample :
    encode_message (Json.str (List.replicate 4294967296 'a')) = none :=
  encode_message_replicate_none 4294967296 (Nat.le_refl 4294967296)


/-- C2 (amended): an empty stream is a clean shutdown (and the session loop
exits cleanly with no frame written); one to three prefix bytes raise
struct.error; a payload whose available bytes do not decode to JSON raises.
A truncated payload is not detected as such: get_message parses whatever
bytes are present (see the counterexample). -/
theorem c2_truncation (stream : List Nat) :
    (stream = [] → get_message stream = GetMessageResult.exitZero
      ∧ ∀ broker, session_step broker stream = LoopStep.exitZero) ∧
    (stream ≠ [] → stream.length < 4 → get_message stream = GetMessageResult.raised) ∧
    (∀ b0 b1 b2 b3 rest, stream = b0 :: b1 :: b2 :: b3 :: rest →
      decodeFramePayload (rest.take (unpackUInt b0 b1 b2 b3)) = none →
      get_message stream = GetMessageResult.raised) := by
  refine ⟨?_, ?_, ?_⟩
  · intro h
    subst h
    exact ⟨rfl, fun broker => rfl⟩
  · intro h1 h2
    cases stream with
    | nil => exact absurd rfl h1
    | cons a t =>
      cases t with
      | nil => rfl
      | cons b t2 =>
        cases t2 with
        | nil => rfl
        | cons c t3 =>
          cases t3 with
          | nil => rfl
          | cons d t4 => simp at h2; omega
  · intro b0 b1 b2 b3 rest hs hdec
    subst hs
    rw [get_message]
    unfold decodeFramePayload at hdec
    cases hu : utf8Decode (rest.take (unpackUInt b0 b1 b2 b3)) with
    | none => simp [hu]
    | some cs =>
      rw [hu] at hdec
      simp only [] at hdec
      simp [hu, hdec]

theorem c2_truncation_witness :
    get_message [2, 0, 0, 0, 123] = GetMessageResult.raised :=
  (c2_truncation [2, 0, 0, 0, 123]).2.2 2 0 0 0 [123] rfl (by rfl)

/-- C2 counterexample: the stream declares a six-byte payload but ends
after three bytes ("123"); rather than failing on the short read, the
bridge parses the bytes it got and returns the JSON number 123. -/
theorem c2_counterexample :
    get_message [6, 0, 0, 0, 49, 50, 51] = GetMessageResult.message (Json.num 123) [] := by
  rfl

end EntraSSO
